import Mathlib

/-!
Verification of the stochastic-oscillator scanner (`scanner_app.py`).

The development shallowly embeds the numerical core of the scanner:
`calculate_stochastic`, `get_signal` and the per-ticker body of
`scan_tickers`.  Pandas/NumPy floating-point series are modelled by lists
of `FVal`, where `FVal.nan` stands for IEEE NaN (pandas "missing"),
`FVal.inf`/`FVal.neginf` for the infinities and `FVal.num q` for a finite
value, represented exactly as a rational.  Prices are rationals.
-/

set_option maxRecDepth 1000000
set_option maxHeartbeats 4000000

/-- Model of an IEEE floating-point cell of a pandas series: either NaN
(missing), an infinity, or a finite value (kept exact as a rational). -/
inductive FVal where
  | nan : FVal
  | inf : FVal
  | neginf : FVal
  | num : ℚ → FVal
deriving DecidableEq, Repr

/-- IEEE negation on `FVal`. -/
def fneg : FVal → FVal
  | FVal.nan => FVal.nan
  | FVal.inf => FVal.neginf
  | FVal.neginf => FVal.inf
  | FVal.num q => FVal.num (-q)

/-- IEEE addition on `FVal`: NaN absorbs, opposite infinities give NaN. -/
def fadd : FVal → FVal → FVal
  | FVal.nan, _ => FVal.nan
  | _, FVal.nan => FVal.nan
  | FVal.inf, FVal.neginf => FVal.nan
  | FVal.neginf, FVal.inf => FVal.nan
  | FVal.inf, _ => FVal.inf
  | _, FVal.inf => FVal.inf
  | FVal.neginf, _ => FVal.neginf
  | _, FVal.neginf => FVal.neginf
  | FVal.num a, FVal.num b => FVal.num (a + b)

/-- IEEE subtraction on `FVal`. -/
def fsub (a b : FVal) : FVal := fadd a (fneg b)

/-- IEEE multiplication on `FVal`: NaN absorbs, `0 * ∞ = NaN`. -/
def fmul : FVal → FVal → FVal
  | FVal.nan, _ => FVal.nan
  | _, FVal.nan => FVal.nan
  | FVal.num a, FVal.num b => FVal.num (a * b)
  | FVal.num a, FVal.inf =>
      if 0 < a then FVal.inf else if a < 0 then FVal.neginf else FVal.nan
  | FVal.inf, FVal.num a =>
      if 0 < a then FVal.inf else if a < 0 then FVal.neginf else FVal.nan
  | FVal.num a, FVal.neginf =>
      if 0 < a then FVal.neginf else if a < 0 then FVal.inf else FVal.nan
  | FVal.neginf, FVal.num a =>
      if 0 < a then FVal.neginf else if a < 0 then FVal.inf else FVal.nan
  | FVal.inf, FVal.inf => FVal.inf
  | FVal.inf, FVal.neginf => FVal.neginf
  | FVal.neginf, FVal.inf => FVal.neginf
  | FVal.neginf, FVal.neginf => FVal.inf

/-- IEEE division on `FVal` as NumPy performs it on series: `x/0` is
`±∞` for `x ≠ 0` and NaN for `x = 0`; finite over infinite is `0`. -/
def fdiv : FVal → FVal → FVal
  | FVal.nan, _ => FVal.nan
  | _, FVal.nan => FVal.nan
  | FVal.num a, FVal.num b =>
      if b = 0 then (if a = 0 then FVal.nan else if 0 < a then FVal.inf else FVal.neginf)
      else FVal.num (a / b)
  | FVal.inf, FVal.num b => if 0 ≤ b then FVal.inf else FVal.neginf
  | FVal.neginf, FVal.num b => if 0 ≤ b then FVal.neginf else FVal.inf
  | FVal.num _, FVal.inf => FVal.num 0
  | FVal.num _, FVal.neginf => FVal.num 0
  | FVal.inf, FVal.inf => FVal.nan
  | FVal.inf, FVal.neginf => FVal.nan
  | FVal.neginf, FVal.inf => FVal.nan
  | FVal.neginf, FVal.neginf => FVal.nan

/-- IEEE strict greater-than on `FVal`: any comparison with NaN is false. -/
def fgt : FVal → FVal → Bool
  | FVal.nan, _ => false
  | _, FVal.nan => false
  | FVal.inf, FVal.inf => false
  | FVal.inf, _ => true
  | _, FVal.inf => false
  | FVal.neginf, _ => false
  | FVal.num _, FVal.neginf => true
  | FVal.num a, FVal.num b => decide (b < a)

/-- One monthly candle of the downloaded price history (`df`): the
period-end date (as the code formats it) and the four price columns. -/
structure Ohlc where
  date : String
  open_ : ℚ
  high : ℚ
  low : ℚ
  close : ℚ
deriving DecidableEq, Repr

/-- Trailing window of width `w` ending at index `i`: the elements at
indices `i+1-w .. i` (clipped at the left edge), as pandas `rolling` sees
them. -/
def winSlice {α : Type} (xs : List α) (i w : Nat) : List α :=
  (xs.take (i + 1)).drop (i + 1 - w)

/-- Minimum of a window, NaN on the empty window. -/
def qfoldMin (l : List ℚ) : FVal :=
  match l.min? with
  | none => FVal.nan
  | some m => FVal.num m

/-- Maximum of a window, NaN on the empty window. -/
def qfoldMax (l : List ℚ) : FVal :=
  match l.max? with
  | none => FVal.nan
  | some m => FVal.num m

/-- Embedding of `series.rolling(window=w).min()` on a series of plain
numbers: NaN until a full window of `w` observations is available, then
the window minimum. -/
def rollingMin (xs : List ℚ) (w : Nat) : List FVal :=
  (List.range xs.length).map fun i =>
    if i + 1 < w then FVal.nan else qfoldMin (winSlice xs i w)

/-- Embedding of `series.rolling(window=w).max()`. -/
def rollingMax (xs : List ℚ) (w : Nat) : List FVal :=
  (List.range xs.length).map fun i =>
    if i + 1 < w then FVal.nan else qfoldMax (winSlice xs i w)

/-- IEEE sum of a window of `FVal`s. -/
def fsum (l : List FVal) : FVal := l.foldl fadd (FVal.num 0)

/-- Embedding of `series.rolling(window=w).mean()` on an `FVal` series:
NaN until a full window is available; with `min_periods` defaulting to
the window size, a NaN anywhere in the window makes the mean NaN. -/
def rollingMeanF (xs : List FVal) (w : Nat) : List FVal :=
  (List.range xs.length).map fun i =>
    if i + 1 < w then FVal.nan else fdiv (fsum (winSlice xs i w)) (FVal.num (w : ℚ))

/-- Pointwise combination of three aligned series. -/
def zipWith3 {α β γ δ : Type} (f : α → β → γ → δ) : List α → List β → List γ → List δ
  | a :: as, b :: bs, c :: cs => f a b c :: zipWith3 f as bs cs
  | _, _, _ => []

/-- The raw (unsmoothed) stochastic line of `calculate_stochastic`
line 24: `100 * (df["Close"] - low_min) / (high_max - low_min)` with
`low_min`/`high_max` the `k`-window rolling extremes of lines 22-23. -/
def percent_k_raw (df : List Ohlc) (k : Nat) : List FVal :=
  zipWith3
    (fun c lo hi => fdiv (fmul (FVal.num 100) (fsub (FVal.num c) lo)) (fsub hi lo))
    (df.map Ohlc.close) (rollingMin (df.map Ohlc.low) k) (rollingMax (df.map Ohlc.high) k)

/-- Embedding of `calculate_stochastic(df, k=14, k_smooth=6, d_smooth=3)`
(lines 19-27): early-out to a pair of empty series when the history is
shorter than `k + k_smooth + d_smooth`, otherwise the smoothed %K line
and its `d_smooth`-mean %D line (`.squeeze()` is the identity here). -/
def calculate_stochastic (df : List Ohlc) (k : Nat := 14) (k_smooth : Nat := 6)
    (d_smooth : Nat := 3) : List FVal × List FVal :=
  if df.length < k + k_smooth + d_smooth then ([], [])
  else
    let percent_k_smooth := rollingMeanF (percent_k_raw df k) k_smooth
    let percent_d := rollingMeanF percent_k_smooth d_smooth
    (percent_k_smooth, percent_d)

/-- Embedding of `get_signal` (lines 30-31):
`"Bullish" if k_val > d_val else "Bearish"`, on float values. -/
def get_signal (k_val d_val : FVal) : String :=
  if fgt k_val d_val then "Bullish" else "Bearish"

/-- Embedding of `series.dropna()`: removes the NaN cells (infinities,
were they present, would be kept, as in pandas). -/
def dropna (xs : List FVal) : List FVal := xs.filter (fun v => v ≠ FVal.nan)

/-- Python negative indexing `values[-n]` for `n = 1, 2`: `none` models
the `IndexError` a too-short array raises (caught by the scanner's
`except`). -/
def negIdx {α : Type} (xs : List α) (n : Nat) : Option α :=
  if n ≤ xs.length then xs[xs.length - n]? else none

/-- Line 61: `k_now = float(percent_k.dropna().values[-1])`. -/
def kNow (df : List Ohlc) : Option FVal := negIdx (dropna (calculate_stochastic df).1) 1

/-- Line 62: `d_now = float(percent_d.dropna().values[-1])`. -/
def dNow (df : List Ohlc) : Option FVal := negIdx (dropna (calculate_stochastic df).2) 1

/-- Line 63: `k_prev = float(percent_k.dropna().values[-2])`. -/
def kPrev (df : List Ohlc) : Option FVal := negIdx (dropna (calculate_stochastic df).1) 2

/-- Line 64: `d_prev = float(percent_d.dropna().values[-2])`. -/
def dPrev (df : List Ohlc) : Option FVal := negIdx (dropna (calculate_stochastic df).2) 2

/-- Models Python `str.strip()`: removes leading and trailing whitespace. -/
def stripStr (s : String) : String :=
  String.mk (((s.data.dropWhile Char.isWhitespace).reverse.dropWhile Char.isWhitespace).reverse)

/-- Python `round(x, 2)` on an exact rational: round-half-to-even at two
decimal places (the decimal-representation effects of binary floats are
abstracted away). -/
def round2 (q : ℚ) : ℚ :=
  let x : ℚ := q * 100
  let f : ℤ := Int.floor x
  let frac : ℚ := x - f
  let r : ℤ :=
    if frac < 1 / 2 then f
    else if 1 / 2 < frac then f + 1
    else if f % 2 = 0 then f else f + 1
  (r : ℚ) / 100

/-- Python `round(x, 2)` on a float cell: NaN and infinities round to
themselves. -/
def round2F : FVal → FVal
  | FVal.nan => FVal.nan
  | FVal.inf => FVal.inf
  | FVal.neginf => FVal.neginf
  | FVal.num q => FVal.num (round2 q)

/-- One `(ticker, source)` entry of the scan together with the responses
of the external collaborators: `fetch` is `yf.download` (`none` models a
raised exception), `info_name` the `shortName` lookup of line 71 (`none`
models a raised exception or a missing key, both of which yield "N/A"). -/
structure TickerInput where
  ticker : String
  source : String
  fetch : Option (List Ohlc)
  info_name : Option String
deriving DecidableEq, Repr

/-- The dictionary appended to `results` at lines 75-87. -/
structure ReportRow where
  ticker : String
  name : String
  date : String
  open_ : ℚ
  high : ℚ
  low : ℚ
  close : ℚ
  k : FVal
  d : FVal
  signal : String
  buy : String
deriving DecidableEq, Repr

/-- The body of the `for` loop of `scan_tickers` (lines 37-90) for one
ticker: `none` wherever the Python code `continue`s, including every
place the broad `except: continue` of line 89 can catch an exception
(failed download, `iloc[-1]`/`values[-2]` index errors). -/
def evalTicker (t : TickerInput) : Option ReportRow :=
  if stripStr t.ticker = "" then none
  else
    match t.fetch with
    | none => none
    | some df =>
      if df.isEmpty ∨ df.length < 50 then none
      else
        match df.getLast? with
        | none => none
        | some last_row =>
          if t.source = "asx" ∧ last_row.close < 1 / 2 then none
          else if t.source ∈ ["us_stocks", "nasdaq", "nyse", "s_p_500"] ∧ last_row.close < 1
            then none
          else
            if (calculate_stochastic df).1.isEmpty ∨ (calculate_stochastic df).2.isEmpty ∨
                (dropna (calculate_stochastic df).1).length < 2 then none
            else
              match kNow df, dNow df, kPrev df, dPrev df with
              | some k_now, some d_now, some k_prev, some d_prev =>
                some
                  { ticker := t.ticker
                    name := t.info_name.getD "N/A"
                    date := last_row.date
                    open_ := round2 last_row.open_
                    high := round2 last_row.high
                    low := round2 last_row.low
                    close := round2 last_row.close
                    k := round2F k_now
                    d := round2F d_now
                    signal := get_signal k_now d_now
                    buy := if get_signal k_prev d_prev = "Bearish" ∧
                              get_signal k_now d_now = "Bullish"
                           then "Yes" else "" }
              | _, _, _, _ => none

/-- Embedding of `scan_tickers` (lines 34-92): the rows of the returned
DataFrame, in input order, one per ticker that survives the loop body. -/
def scan_tickers (ticker_map : List TickerInput) : List ReportRow :=
  ticker_map.filterMap evalTicker

/-- Validity of an OHLC series: positive prices and
`low ≤ open, close ≤ high` in every period. -/
def validOhlc (df : List Ohlc) : Prop :=
  ∀ p ∈ df, 0 < p.low ∧ p.low ≤ p.high ∧ p.low ≤ p.open_ ∧ p.open_ ≤ p.high ∧
    p.low ≤ p.close ∧ p.close ≤ p.high

/-- A float cell that is either missing or a finite value in `[0, 100]`. -/
def inRange (v : FVal) : Prop :=
  v = FVal.nan ∨ ∃ q : ℚ, v = FVal.num q ∧ 0 ≤ q ∧ q ≤ 100

/-- Index (into the original series) of the last non-NaN cell. -/
def lastDefIdx (xs : List FVal) : Option Nat :=
  ((List.range xs.length).filter (fun i => decide (xs[i]? ≠ some FVal.nan))).getLast?

/-- A 52-month series with identical non-flat candles (low 1, high 3,
close 2): every defined stochastic value is 50. -/
def df50 : List Ohlc := List.replicate 52 ⟨"d", 2, 3, 1, 2⟩

/-- A well-behaved scanned ticker over `df50`. -/
def t0 : TickerInput := ⟨"TST", "currencies", some df50, none⟩

/-- A 52-month series whose periods 32-45 are flat at price 2 and whose
last six candles close at the window high: the flat 14-window ending at
period 45 puts an interior NaN into raw %K, which desynchronises the
per-series `dropna()` calls of the scanner. -/
def df6 : List Ohlc :=
  (List.range 52).map fun i =>
    if 32 ≤ i ∧ i ≤ 45 then ⟨"d", 2, 2, 2, 2⟩
    else if 46 ≤ i then ⟨"d", 2, 3, 1, 3⟩
    else ⟨"d", 2, 3, 1, 2⟩

/-- A scanned ticker over the desynchronising series `df6`. -/
def t6 : TickerInput := ⟨"CEX", "currencies", some df6, none⟩

/-- A 23-month series of identical non-flat candles: exactly the minimal
length `k + k_smooth + d_smooth` for the default parameters. -/
def df23 : List Ohlc := List.replicate 23 ⟨"d", 2, 3, 1, 2⟩

/-- A 10-month series, too short for the default parameters. -/
def df10 : List Ohlc := List.replicate 10 ⟨"d", 2, 3, 1, 2⟩

/-- A 20-month series in which every candle is flat at price 5. -/
def dfFlat : List Ohlc := List.replicate 20 ⟨"d", 5, 5, 5, 5⟩

/-- A 52-month penny-stock series whose latest close is 0.40. -/
def dfAsx : List Ohlc := List.replicate 52 ⟨"d", 1/5, 3, 1/10, 2/5⟩

/-- An ASX ticker below the 0.50 price floor. -/
def tAsx : TickerInput := ⟨"AAA", "asx", some dfAsx, none⟩

/-- A ticker whose download raises (models a data-source failure). -/
def tBad : TickerInput := ⟨"BAD", "currencies", none, none⟩

/-- The row the scanner produces for `t0`. -/
def row0 : ReportRow :=
  ⟨"TST", "N/A", "d", 2, 3, 1, 2, FVal.num 50, FVal.num 50, "Bearish", ""⟩

/-- The row the scanner produces for `t6`: classified from a %K value of
period 51 and a %D value of period 44. -/
def row6 : ReportRow :=
  ⟨"CEX", "N/A", "d", 2, 3, 1, 3, FVal.num 100, FVal.num 50, "Bullish", "Yes"⟩

/-- Number of leading undefined (NaN) cells of a series. -/
def leadingUndef (xs : List FVal) : Nat := (xs.takeWhile (fun v => v = FVal.nan)).length

section Infrastructure

lemma fadd_nan_left (v : FVal) : fadd FVal.nan v = FVal.nan := by
  cases v <;> rfl

lemma fadd_nan_right (v : FVal) : fadd v FVal.nan = FVal.nan := by
  cases v <;> rfl

lemma foldl_fadd_nan (l : List FVal) : l.foldl fadd FVal.nan = FVal.nan := by
  induction l with
  | nil => rfl
  | cons a l ih => simpa [List.foldl, fadd_nan_left] using ih

lemma foldl_fadd_of_mem_nan :
    ∀ (l : List FVal) (acc : FVal), FVal.nan ∈ l → l.foldl fadd acc = FVal.nan := by
  intro l
  induction l with
  | nil => intro acc h; cases h
  | cons a l ih =>
    intro acc h
    rcases List.mem_cons.mp h with h1 | h2
    · subst h1; simp [List.foldl, fadd_nan_right, foldl_fadd_nan]
    · exact ih _ h2

lemma fsum_of_mem_nan {l : List FVal} (h : FVal.nan ∈ l) : fsum l = FVal.nan :=
  foldl_fadd_of_mem_nan l _ h

lemma foldl_fadd_num :
    ∀ (l : List FVal) (s : ℚ), (∀ v ∈ l, ∃ q : ℚ, v = FVal.num q) →
      ∃ t : ℚ, l.foldl fadd (FVal.num s) = FVal.num t := by
  intro l
  induction l with
  | nil => intro s _; exact ⟨s, rfl⟩
  | cons a l ih =>
    intro s h
    obtain ⟨q, hq⟩ := h a (List.mem_cons_self a l)
    subst hq
    obtain ⟨t, ht⟩ := ih (s + q) (fun v hv => h v (List.mem_cons_of_mem _ hv))
    exact ⟨t, by simpa [List.foldl, fadd] using ht⟩

lemma fsum_num {l : List FVal} (h : ∀ v ∈ l, ∃ q : ℚ, v = FVal.num q) :
    ∃ t : ℚ, fsum l = FVal.num t :=
  foldl_fadd_num l 0 h

lemma foldl_fadd_num_bound :
    ∀ (l : List FVal) (s : ℚ),
      (∀ v ∈ l, ∃ q : ℚ, v = FVal.num q ∧ 0 ≤ q ∧ q ≤ 100) →
      ∃ t : ℚ, l.foldl fadd (FVal.num s) = FVal.num (s + t) ∧ 0 ≤ t ∧
        t ≤ 100 * l.length := by
  intro l
  induction l with
  | nil => intro s _; exact ⟨0, by simp [List.foldl]⟩
  | cons a l ih =>
    intro s h
    obtain ⟨q, hq, hq0, hq1⟩ := h a (List.mem_cons_self a l)
    subst hq
    obtain ⟨t, ht, ht0, ht1⟩ := ih (s + q) (fun v hv => h v (List.mem_cons_of_mem _ hv))
    refine ⟨q + t, ?_, by positivity, ?_⟩
    · have : s + q + t = s + (q + t) := by ring
      simpa [List.foldl, fadd, this] using ht
    · have : (100 : ℚ) * (l.length + 1) = 100 * l.length + 100 := by ring
      simp only [List.length_cons]
      push_cast
      linarith

lemma fsum_num_bound {l : List FVal}
    (h : ∀ v ∈ l, ∃ q : ℚ, v = FVal.num q ∧ 0 ≤ q ∧ q ≤ 100) :
    ∃ t : ℚ, fsum l = FVal.num t ∧ 0 ≤ t ∧ t ≤ 100 * l.length := by
  obtain ⟨t, ht, ht0, ht1⟩ := foldl_fadd_num_bound l 0 h
  exact ⟨t, by simpa [fsum] using ht, ht0, ht1⟩

lemma winSlice_length_le {α : Type} (xs : List α) (i w : Nat) :
    (winSlice xs i w).length ≤ w := by
  simp only [winSlice, List.length_drop, List.length_take]
  omega

lemma winSlice_getElem {α : Type} (xs : List α) (i w j : Nat)
    (h1 : i + 1 - w ≤ j) (h2 : j ≤ i) :
    (winSlice xs i w)[j - (i + 1 - w)]? = xs[j]? := by
  unfold winSlice
  rw [List.getElem?_drop]
  have hj : i + 1 - w + (j - (i + 1 - w)) = j := by omega
  rw [hj, List.getElem?_take_of_lt (by omega)]

lemma mem_winSlice_of_getElem {α : Type} {xs : List α} {i w j : Nat} {v : α}
    (h1 : i + 1 - w ≤ j) (h2 : j ≤ i) (hv : xs[j]? = some v) :
    v ∈ winSlice xs i w := by
  have := winSlice_getElem xs i w j h1 h2
  rw [hv] at this
  exact List.getElem?_mem this

lemma of_mem_winSlice {α : Type} {xs : List α} {i w : Nat} {v : α}
    (h : v ∈ winSlice xs i w) :
    ∃ j, i + 1 - w ≤ j ∧ j ≤ i ∧ xs[j]? = some v := by
  obtain ⟨p, hp⟩ := List.mem_iff_getElem?.mp h
  have hplen : p < (winSlice xs i w).length := (List.getElem?_eq_some_iff.mp hp).1
  unfold winSlice at hp
  rw [List.getElem?_drop] at hp
  by_cases hcase : i + 1 - w + p < i + 1
  · rw [List.getElem?_take_of_lt hcase] at hp
    exact ⟨i + 1 - w + p, by omega, by omega, hp⟩
  · rw [List.getElem?_eq_none (by simp [List.length_take]; omega)] at hp
    cases hp

lemma qfoldMin_le {l : List ℚ} {m b : ℚ} (h : qfoldMin l = FVal.num m) (hb : b ∈ l) :
    m ≤ b := by
  unfold qfoldMin at h
  cases hm : l.min? with
  | none => rw [hm] at h; cases h
  | some m2 =>
    rw [hm] at h
    cases h
    exact (List.le_min?_iff (fun _ _ _ => le_min_iff) hm).mp le_rfl b hb

lemma qfoldMin_mem {l : List ℚ} {m : ℚ} (h : qfoldMin l = FVal.num m) : m ∈ l := by
  unfold qfoldMin at h
  cases hm : l.min? with
  | none => rw [hm] at h; cases h
  | some m2 =>
    rw [hm] at h
    cases h
    exact List.min?_mem (fun a b => min_choice a b) hm

lemma le_qfoldMax {l : List ℚ} {m b : ℚ} (h : qfoldMax l = FVal.num m) (hb : b ∈ l) :
    b ≤ m := by
  unfold qfoldMax at h
  cases hm : l.max? with
  | none => rw [hm] at h; cases h
  | some m2 =>
    rw [hm] at h
    cases h
    exact (List.max?_le_iff (fun _ _ _ => max_le_iff) hm).mp le_rfl b hb

lemma qfoldMax_mem {l : List ℚ} {m : ℚ} (h : qfoldMax l = FVal.num m) : m ∈ l := by
  unfold qfoldMax at h
  cases hm : l.max? with
  | none => rw [hm] at h; cases h
  | some m2 =>
    rw [hm] at h
    cases h
    exact List.max?_mem (fun a b => max_choice a b) hm

lemma qfoldMin_empty : qfoldMin [] = FVal.nan := rfl

lemma qfoldMax_empty : qfoldMax [] = FVal.nan := rfl

end Infrastructure

section RollingLemmas

lemma rollingMin_getElem (xs : List ℚ) (w i : Nat) (hi : i < xs.length) :
    (rollingMin xs w)[i]? =
      some (if i + 1 < w then FVal.nan else qfoldMin (winSlice xs i w)) := by
  simp [rollingMin, List.getElem?_range hi]

lemma rollingMax_getElem (xs : List ℚ) (w i : Nat) (hi : i < xs.length) :
    (rollingMax xs w)[i]? =
      some (if i + 1 < w then FVal.nan else qfoldMax (winSlice xs i w)) := by
  simp [rollingMax, List.getElem?_range hi]

lemma rollingMeanF_getElem (xs : List FVal) (w i : Nat) (hi : i < xs.length) :
    (rollingMeanF xs w)[i]? =
      some (if i + 1 < w then FVal.nan
            else fdiv (fsum (winSlice xs i w)) (FVal.num (w : ℚ))) := by
  simp [rollingMeanF, List.getElem?_range hi]

lemma rollingMin_length (xs : List ℚ) (w : Nat) : (rollingMin xs w).length = xs.length := by
  simp [rollingMin]

lemma rollingMax_length (xs : List ℚ) (w : Nat) : (rollingMax xs w).length = xs.length := by
  simp [rollingMax]

lemma rollingMeanF_length (xs : List FVal) (w : Nat) :
    (rollingMeanF xs w).length = xs.length := by
  simp [rollingMeanF]

lemma zipWith3_length {α β γ δ : Type} (f : α → β → γ → δ) :
    ∀ (as : List α) (bs : List β) (cs : List γ),
      (zipWith3 f as bs cs).length = min (min as.length bs.length) cs.length := by
  intro as
  induction as with
  | nil => intro bs cs; simp [zipWith3]
  | cons a as ih =>
    intro bs cs
    cases bs with
    | nil => simp [zipWith3]
    | cons b bs =>
      cases cs with
      | nil => simp [zipWith3]
      | cons c cs => simp [zipWith3, ih]; omega

lemma zipWith3_getElem {α β γ δ : Type} (f : α → β → γ → δ) :
    ∀ (as : List α) (bs : List β) (cs : List γ) (i : Nat) (a : α) (b : β) (c : γ),
      as[i]? = some a → bs[i]? = some b → cs[i]? = some c →
      (zipWith3 f as bs cs)[i]? = some (f a b c) := by
  intro as
  induction as with
  | nil => intro bs cs i a b c ha; simp at ha
  | cons x as ih =>
    intro bs cs i a b c ha hb hc
    cases bs with
    | nil => simp at hb
    | cons y bs =>
      cases cs with
      | nil => simp at hc
      | cons z cs =>
        cases i with
        | zero =>
          simp only [List.getElem?_cons_zero, Option.some_inj] at ha hb hc
          subst ha; subst hb; subst hc
          simp [zipWith3]
        | succ n =>
          simp only [List.getElem?_cons_succ] at ha hb hc
          simpa [zipWith3] using ih bs cs n a b c ha hb hc

lemma zipWith3_getElem_inv {α β γ δ : Type} (f : α → β → γ → δ) :
    ∀ (as : List α) (bs : List β) (cs : List γ) (i : Nat) (v : δ),
      (zipWith3 f as bs cs)[i]? = some v →
      ∃ a b c, as[i]? = some a ∧ bs[i]? = some b ∧ cs[i]? = some c ∧ v = f a b c := by
  intro as
  induction as with
  | nil => intro bs cs i v hv; simp [zipWith3] at hv
  | cons x as ih =>
    intro bs cs i v hv
    cases bs with
    | nil => simp [zipWith3] at hv
    | cons y bs =>
      cases cs with
      | nil => simp [zipWith3] at hv
      | cons z cs =>
        cases i with
        | zero =>
          simp only [zipWith3, List.getElem?_cons_zero, Option.some_inj] at hv
          exact ⟨x, y, z, by simp, by simp, by simp, hv.symm⟩
        | succ n =>
          simp only [zipWith3, List.getElem?_cons_succ] at hv
          obtain ⟨a, b, c, ha, hb, hc, hfv⟩ := ih bs cs n v hv
          exact ⟨a, b, c, by simpa using ha, by simpa using hb, by simpa using hc, hfv⟩

lemma percent_k_raw_length (df : List Ohlc) (k : Nat) :
    (percent_k_raw df k).length = df.length := by
  simp [percent_k_raw, zipWith3_length, rollingMin_length, rollingMax_length]

end RollingLemmas

section MeanLemmas

lemma mem_of_mem_winSlice {α : Type} {xs : List α} {i w : Nat} {v : α}
    (h : v ∈ winSlice xs i w) : v ∈ xs :=
  List.take_subset (i + 1) xs (List.drop_subset _ _ h)

lemma winSlice_length {α : Type} (xs : List α) (i w : Nat) :
    (winSlice xs i w).length = min (i + 1) xs.length - (i + 1 - w) := by
  simp [winSlice, List.length_drop, List.length_take]

lemma rollingMeanF_nan_of_window {xs : List FVal} {w i j : Nat} (hi : i < xs.length)
    (hj1 : i + 1 - w ≤ j) (hj2 : j ≤ i) (hx : xs[j]? = some FVal.nan) :
    (rollingMeanF xs w)[i]? = some FVal.nan := by
  rw [rollingMeanF_getElem xs w i hi]
  by_cases hw : i + 1 < w
  · simp [hw]
  · have hmem : FVal.nan ∈ winSlice xs i w := mem_winSlice_of_getElem hj1 hj2 hx
    simp [hw, fsum_of_mem_nan hmem, fdiv]

lemma rollingMeanF_num_of_window {xs : List FVal} {w i : Nat} (hi : i < xs.length)
    (hw1 : 1 ≤ w) (hw2 : w ≤ i + 1)
    (hall : ∀ j, i + 1 - w ≤ j → j ≤ i → ∃ q : ℚ, xs[j]? = some (FVal.num q)) :
    ∃ q : ℚ, (rollingMeanF xs w)[i]? = some (FVal.num q) := by
  rw [rollingMeanF_getElem xs w i hi]
  have hw : ¬ i + 1 < w := by omega
  have hnum : ∀ v ∈ winSlice xs i w, ∃ q : ℚ, v = FVal.num q := by
    intro v hv
    obtain ⟨j, hj1, hj2, hj3⟩ := of_mem_winSlice hv
    obtain ⟨q, hq⟩ := hall j hj1 hj2
    rw [hj3] at hq
    exact ⟨q, by injection hq⟩
  obtain ⟨t, ht⟩ := fsum_num hnum
  have hwq : ((w : ℚ)) ≠ 0 := Nat.cast_ne_zero.mpr (by omega)
  exact ⟨t / w, by simp [hw, ht, fdiv, hwq]⟩

lemma rollingMeanF_inRange (xs : List FVal) (w : Nat)
    (h : ∀ v ∈ xs, inRange v) : ∀ v ∈ rollingMeanF xs w, inRange v := by
  intro v hv
  obtain ⟨i, hi⟩ := List.mem_iff_getElem?.mp hv
  have hil : i < xs.length := by
    have := (List.getElem?_eq_some_iff.mp hi).1
    simpa [rollingMeanF_length] using this
  rw [rollingMeanF_getElem xs w i hil] at hi
  injection hi with hi
  by_cases hw : i + 1 < w
  · left; rw [← hi]; simp [hw]
  · by_cases hnan : FVal.nan ∈ winSlice xs i w
    · left; rw [← hi]; simp [hw, fsum_of_mem_nan hnan, fdiv]
    · have hnum : ∀ u ∈ winSlice xs i w, ∃ q : ℚ, u = FVal.num q ∧ 0 ≤ q ∧ q ≤ 100 := by
        intro u hu
        rcases h u (mem_of_mem_winSlice hu) with h1 | ⟨q, hq, hq0, hq1⟩
        · exact absurd (h1 ▸ hu) hnan
        · exact ⟨q, hq, hq0, hq1⟩
      obtain ⟨t, ht, ht0, ht1⟩ := fsum_num_bound hnum
      by_cases hw0 : w = 0
      · left
        rw [← hi]
        subst hw0
        have hlen : (winSlice xs i 0).length = 0 := Nat.le_zero.mp (winSlice_length_le xs i 0)
        have ht1z : t ≤ 0 := by rw [hlen] at ht1; simpa using ht1
        have htz : t = 0 := le_antisymm ht1z ht0
        subst htz
        simp [ht, fdiv]
      · right
        have hwq : ((w : ℚ)) ≠ 0 := Nat.cast_ne_zero.mpr hw0
        have hwpos : (0 : ℚ) < w := by positivity
        refine ⟨t / w, ?_, div_nonneg ht0 (by positivity), ?_⟩
        · rw [← hi]; simp [hw, ht, fdiv, hwq]
        · have hlen : ((winSlice xs i w).length : ℚ) ≤ (w : ℚ) := by
            exact_mod_cast winSlice_length_le xs i w
          have htw : t ≤ 100 * w := le_trans ht1 (by nlinarith)
          rw [div_le_iff₀ hwpos]
          linarith

end MeanLemmas

section RawLemmas

lemma qfoldMin_num_of_ne_nil {l : List ℚ} (h : l ≠ []) :
    ∃ m : ℚ, qfoldMin l = FVal.num m := by
  unfold qfoldMin
  cases hm : l.min? with
  | none => exact absurd (List.min?_eq_none_iff.mp hm) h
  | some m => exact ⟨m, rfl⟩

lemma qfoldMax_num_of_ne_nil {l : List ℚ} (h : l ≠ []) :
    ∃ m : ℚ, qfoldMax l = FVal.num m := by
  unfold qfoldMax
  cases hm : l.max? with
  | none => exact absurd (List.max?_eq_none_iff.mp hm) h
  | some m => exact ⟨m, rfl⟩

lemma qfoldMin_ne_nil {l : List ℚ} {m : ℚ} (h : qfoldMin l = FVal.num m) : l ≠ [] := by
  intro hnil
  subst hnil
  cases h

lemma percent_k_raw_getElem_inv {df : List Ohlc} {k i : Nat} {v : FVal}
    (hv : (percent_k_raw df k)[i]? = some v) :
    ∃ p lo hi_, df[i]? = some p ∧
      (rollingMin (df.map Ohlc.low) k)[i]? = some lo ∧
      (rollingMax (df.map Ohlc.high) k)[i]? = some hi_ ∧
      v = fdiv (fmul (FVal.num 100) (fsub (FVal.num p.close) lo)) (fsub hi_ lo) := by
  obtain ⟨c, lo, hi_, hc, hlo, hhi, hveq⟩ := zipWith3_getElem_inv _ _ _ _ _ _ hv
  rw [List.getElem?_map] at hc
  cases hp : df[i]? with
  | none => rw [hp] at hc; cases hc
  | some p =>
    rw [hp] at hc
    simp only [Option.map_some', Option.some_inj] at hc
    exact ⟨p, lo, hi_, rfl, hlo, hhi, by rw [hveq, ← hc]⟩

lemma percent_k_raw_getElem {df : List Ohlc} {k i : Nat} {p : Ohlc}
    (hp : df[i]? = some p) :
    (percent_k_raw df k)[i]? =
      some (fdiv
        (fmul (FVal.num 100)
          (fsub (FVal.num p.close)
            (if i + 1 < k then FVal.nan else qfoldMin (winSlice (df.map Ohlc.low) i k))))
        (fsub (if i + 1 < k then FVal.nan else qfoldMax (winSlice (df.map Ohlc.high) i k))
          (if i + 1 < k then FVal.nan else qfoldMin (winSlice (df.map Ohlc.low) i k)))) := by
  have hi : i < df.length := by
    have := (List.getElem?_eq_some_iff.mp hp).1
    exact this
  have hc : (df.map Ohlc.close)[i]? = some p.close := by
    rw [List.getElem?_map, hp]; rfl
  have hlo := rollingMin_getElem (df.map Ohlc.low) k i (by simpa using hi)
  have hhi := rollingMax_getElem (df.map Ohlc.high) k i (by simpa using hi)
  exact zipWith3_getElem _ _ _ _ _ _ _ _ hc hlo hhi

lemma percent_k_raw_nan_of_lt {df : List Ohlc} {k i : Nat} (hi : i < df.length)
    (hik : i + 1 < k) : (percent_k_raw df k)[i]? = some FVal.nan := by
  have hp : df[i]? = some df[i] := List.getElem?_eq_getElem hi
  rw [percent_k_raw_getElem hp, if_pos hik]
  simp [fsub, fneg, fadd, fmul, fdiv]

lemma percent_k_raw_num_of_ne {df : List Ohlc} {k i : Nat} (hi : i < df.length)
    (hik : k ≤ i + 1) (hk : 1 ≤ k)
    (hne : qfoldMin (winSlice (df.map Ohlc.low) i k) ≠
           qfoldMax (winSlice (df.map Ohlc.high) i k)) :
    ∃ q : ℚ, (percent_k_raw df k)[i]? = some (FVal.num q) := by
  have hp : df[i]? = some df[i] := List.getElem?_eq_getElem hi
  rw [percent_k_raw_getElem hp]
  simp only [if_neg (show ¬ i + 1 < k by omega)]
  have hlnil : winSlice (df.map Ohlc.low) i k ≠ [] := by
    have : (winSlice (df.map Ohlc.low) i k).length =
        min (i + 1) (df.map Ohlc.low).length - (i + 1 - k) := winSlice_length _ i k
    intro hnil
    rw [hnil] at this
    simp only [List.length_nil, List.length_map] at this
    omega
  have hhnil : winSlice (df.map Ohlc.high) i k ≠ [] := by
    have : (winSlice (df.map Ohlc.high) i k).length =
        min (i + 1) (df.map Ohlc.high).length - (i + 1 - k) := winSlice_length _ i k
    intro hnil
    rw [hnil] at this
    simp only [List.length_nil, List.length_map] at this
    omega
  obtain ⟨m, hm⟩ := qfoldMin_num_of_ne_nil hlnil
  obtain ⟨M, hM⟩ := qfoldMax_num_of_ne_nil hhnil
  rw [hm, hM]
  have hmM : m ≠ M := by
    intro heq
    rw [hm, hM, heq] at hne
    exact hne rfl
  have hden : M - m ≠ 0 := sub_ne_zero.mpr (Ne.symm hmM)
  refine ⟨100 * (df[i].close - m) / (M - m), ?_⟩
  simp only [fsub, fneg, fadd, fmul, fdiv]
  rw [if_neg (show M + -m ≠ 0 by rw [← sub_eq_add_neg]; exact hden)]
  norm_num [sub_eq_add_neg]

lemma calculate_stochastic_eq {df : List Ohlc} {k ks ds : Nat}
    (hlen : k + ks + ds ≤ df.length) :
    calculate_stochastic df k ks ds =
      (rollingMeanF (percent_k_raw df k) ks,
       rollingMeanF (rollingMeanF (percent_k_raw df k) ks) ds) := by
  unfold calculate_stochastic
  rw [if_neg (by omega)]

end RawLemmas

section RangeLemmas

lemma qfoldMin_cases (l : List ℚ) :
    qfoldMin l = FVal.nan ∨ ∃ m : ℚ, qfoldMin l = FVal.num m := by
  unfold qfoldMin
  cases l.min? <;> simp

lemma percent_k_raw_inRange (df : List Ohlc) (k : Nat) (hval : validOhlc df) :
    ∀ v ∈ percent_k_raw df k, inRange v := by
  intro v hv
  obtain ⟨i, hiv⟩ := List.mem_iff_getElem?.mp hv
  have hi : i < df.length := by
    have := (List.getElem?_eq_some_iff.mp hiv).1
    rwa [percent_k_raw_length] at this
  have hp : df[i]? = some df[i] := List.getElem?_eq_getElem hi
  rw [percent_k_raw_getElem hp] at hiv
  injection hiv with hiv
  by_cases hik : i + 1 < k
  · left
    rw [← hiv]
    simp only [if_pos hik]
    simp [fsub, fneg, fadd, fmul, fdiv]
  · simp only [if_neg hik] at hiv
    rcases qfoldMin_cases (winSlice (df.map Ohlc.low) i k) with hm | ⟨m, hm⟩
    · left
      rw [← hiv, hm]
      simp [fsub, fneg, fadd, fmul, fdiv]
    · have hlnil := qfoldMin_ne_nil hm
      have hk1 : 1 ≤ k := by
        by_contra hk0
        apply hlnil
        apply List.length_eq_zero.mp
        rw [winSlice_length]
        omega
      have hhnil : winSlice (df.map Ohlc.high) i k ≠ [] := by
        intro hnil
        apply hlnil
        apply List.length_eq_zero.mp
        have h2 := winSlice_length (df.map Ohlc.high) i k
        rw [hnil] at h2
        simp only [List.length_nil, List.length_map] at h2
        rw [winSlice_length]
        simp only [List.length_map]
        omega
      obtain ⟨M, hM⟩ := qfoldMax_num_of_ne_nil hhnil
      have hlow : df[i].low ∈ winSlice (df.map Ohlc.low) i k := by
        apply mem_winSlice_of_getElem (j := i) (by omega) le_rfl
        rw [List.getElem?_map, hp]
        rfl
      have hhigh : df[i].high ∈ winSlice (df.map Ohlc.high) i k := by
        apply mem_winSlice_of_getElem (j := i) (by omega) le_rfl
        rw [List.getElem?_map, hp]
        rfl
      have hmlow : m ≤ df[i].low := qfoldMin_le hm hlow
      have hhighM : df[i].high ≤ M := le_qfoldMax hM hhigh
      obtain ⟨-, -, -, -, hlc, hch⟩ := hval df[i] (List.getElem?_mem hp)
      have hmc : m ≤ df[i].close := le_trans hmlow hlc
      have hcM : df[i].close ≤ M := le_trans hch hhighM
      rw [hm, hM] at hiv
      by_cases hmM : m = M
      · left
        rw [← hiv]
        have hc : df[i].close = m := le_antisymm (by rw [hmM]; exact hcM) hmc
        simp [fsub, fneg, fadd, fmul, fdiv, hc, hmM]
      · right
        have hden : M - m ≠ 0 := sub_ne_zero.mpr (Ne.symm hmM)
        have hmltM : m < M := lt_of_le_of_ne (le_trans hmc hcM) hmM
        refine ⟨100 * (df[i].close - m) / (M - m), ?_, ?_, ?_⟩
        · rw [← hiv]
          simp only [fsub, fneg, fadd, fmul, fdiv]
          rw [if_neg (show M + -m ≠ 0 by rw [← sub_eq_add_neg]; exact hden)]
          norm_num [sub_eq_add_neg]
        · apply div_nonneg
          · nlinarith
          · linarith
        · rw [div_le_iff₀ (by linarith : (0 : ℚ) < M - m)]
          nlinarith

end RangeLemmas

section ClaimC2C3C7

/-- C2: for all real k and d, `get_signal` returns "Bullish" exactly when
`k > d` (strict inequality) and "Bearish" otherwise; in particular a tie
classifies as "Bearish". -/
theorem C2_signal_strict (k d : ℚ) :
    (get_signal (FVal.num k) (FVal.num d) = "Bullish" ↔ d < k) ∧
    (get_signal (FVal.num k) (FVal.num d) = "Bearish" ↔ ¬ d < k) := by
  by_cases h : d < k <;> simp [get_signal, fgt, h]

/-- C2 witness: the tie (50, 50) is Bearish and (50.0001, 50) is Bullish. -/
theorem C2_witness :
    get_signal (FVal.num 50) (FVal.num 50) = "Bearish" ∧
    get_signal (FVal.num (500001 / 10000)) (FVal.num 50) = "Bullish" :=
  ⟨(C2_signal_strict 50 50).2.mpr (by norm_num),
   (C2_signal_strict (500001 / 10000) 50).1.mpr (by norm_num)⟩

/-- C3: for every valid OHLC series of length at least
`k + k_smooth + d_smooth`, every cell of the computed %K and %D series is
either undefined or a value within [0, 100]. -/
theorem C3_stochastic_bounded (df : List Ohlc) (k ks ds : Nat) (hval : validOhlc df)
    (hlen : k + ks + ds ≤ df.length) :
    (∀ v ∈ (calculate_stochastic df k ks ds).1, inRange v) ∧
    (∀ v ∈ (calculate_stochastic df k ks ds).2, inRange v) := by
  rw [calculate_stochastic_eq hlen]
  exact ⟨rollingMeanF_inRange _ _ (percent_k_raw_inRange df k hval),
    rollingMeanF_inRange _ _ (rollingMeanF_inRange _ _ (percent_k_raw_inRange df k hval))⟩

/-- C3 witness: on the 23-month series `df23`, the defined cell 50 of the
computed %K line is within bounds. -/
theorem C3_witness : inRange (FVal.num 50) :=
  (C3_stochastic_bounded df23 14 6 3 (by unfold validOhlc; decide) (by decide)).1 (FVal.num 50)
    (by with_unfolding_all decide)

/-- C7: a series shorter than `k + k_smooth + d_smooth` yields a pair of
empty series, with no defined values at all. -/
theorem C7_short_series_empty (df : List Ohlc) (k ks ds : Nat)
    (hlen : df.length < k + ks + ds) :
    calculate_stochastic df k ks ds = ([], []) := by
  unfold calculate_stochastic
  rw [if_pos hlen]

/-- C7 witness: a 10-period series with the default parameters (14, 6, 3)
yields empty %K and %D. -/
theorem C7_witness : calculate_stochastic df10 14 6 3 = ([], []) :=
  C7_short_series_empty df10 14 6 3 (by decide)

end ClaimC2C3C7

section ClaimC8

lemma percent_k_raw_nan_of_flat {df : List Ohlc} {k i : Nat} (hval : validOhlc df)
    (hi : i < df.length) (hik : k ≤ i + 1)
    (hflat : qfoldMin (winSlice (df.map Ohlc.low) i k) =
             qfoldMax (winSlice (df.map Ohlc.high) i k)) :
    (percent_k_raw df k)[i]? = some FVal.nan := by
  have hp : df[i]? = some df[i] := List.getElem?_eq_getElem hi
  rw [percent_k_raw_getElem hp]
  simp only [if_neg (show ¬ i + 1 < k by omega)]
  rcases qfoldMin_cases (winSlice (df.map Ohlc.low) i k) with hm | ⟨m, hm⟩
  · rw [hm]
    simp [fsub, fneg, fadd, fmul, fdiv]
  · have hM : qfoldMax (winSlice (df.map Ohlc.high) i k) = FVal.num m := by
      rw [← hflat, hm]
    have hlnil := qfoldMin_ne_nil hm
    have hk1 : 1 ≤ k := by
      by_contra hk0
      apply hlnil
      apply List.length_eq_zero.mp
      rw [winSlice_length]
      omega
    have hlow : df[i].low ∈ winSlice (df.map Ohlc.low) i k := by
      apply mem_winSlice_of_getElem (j := i) (by omega) le_rfl
      rw [List.getElem?_map, hp]
      rfl
    have hhigh : df[i].high ∈ winSlice (df.map Ohlc.high) i k := by
      apply mem_winSlice_of_getElem (j := i) (by omega) le_rfl
      rw [List.getElem?_map, hp]
      rfl
    have hmlow : m ≤ df[i].low := qfoldMin_le hm hlow
    have hhighM : df[i].high ≤ m := le_qfoldMax hM hhigh
    obtain ⟨-, -, -, -, hlc, hch⟩ := hval df[i] (List.getElem?_mem hp)
    have hc : df[i].close = m := le_antisymm (le_trans hch hhighM) (le_trans hmlow hlc)
    rw [hm, hM]
    simp [fsub, fneg, fadd, fmul, fdiv, hc]

/-- C8: on a valid series, a full `k`-window whose highest high equals its
lowest low makes the raw %K at that index undefined (NaN) — the value is
not an infinity and no exception escapes, the embedding being total — and
the NaN propagates to the smoothed %K at that index for every smoothing
width rather than being coerced to a number. -/
theorem C8_flat_range_undefined (df : List Ohlc) (k i : Nat) (hval : validOhlc df)
    (hi : i < df.length) (hik : k ≤ i + 1)
    (hflat : qfoldMin (winSlice (df.map Ohlc.low) i k) =
             qfoldMax (winSlice (df.map Ohlc.high) i k)) :
    (percent_k_raw df k)[i]? = some FVal.nan ∧
    ∀ ks : Nat, (rollingMeanF (percent_k_raw df k) ks)[i]? = some FVal.nan := by
  have h1 := percent_k_raw_nan_of_flat hval hi hik hflat
  refine ⟨h1, fun ks => ?_⟩
  have hi2 : i < (percent_k_raw df k).length := by
    rw [percent_k_raw_length]
    exact hi
  by_cases hks : 1 ≤ ks
  · exact rollingMeanF_nan_of_window hi2 (by omega) le_rfl h1
  · have hks0 : ks = 0 := by omega
    subst hks0
    rw [rollingMeanF_getElem _ 0 i hi2]
    have hnil : winSlice (percent_k_raw df k) i 0 = [] := by
      apply List.length_eq_zero.mp
      rw [winSlice_length]
      omega
    rw [if_neg (by omega), hnil]
    simp [fsum, fdiv]

/-- C8 witness: on the all-flat series `dfFlat` the raw %K at index 13 is
NaN and stays NaN after the default 6-period smoothing. -/
theorem C8_witness :
    (percent_k_raw dfFlat 14)[13]? = some FVal.nan ∧
    (rollingMeanF (percent_k_raw dfFlat 14) 6)[13]? = some FVal.nan := by
  have h := C8_flat_range_undefined dfFlat 14 13 (by unfold validOhlc; decide)
    (by decide) (by decide) (by decide)
  exact ⟨h.1, h.2 6⟩

end ClaimC8

section ClaimC5

lemma pk_smooth_nan_of_lt {df : List Ohlc} {k ks i : Nat} (hi : i < df.length)
    (hlt : i < k + ks - 2) (hk : 1 ≤ k) (hks : 1 ≤ ks) :
    (rollingMeanF (percent_k_raw df k) ks)[i]? = some FVal.nan := by
  have hi2 : i < (percent_k_raw df k).length := by
    rw [percent_k_raw_length]
    exact hi
  by_cases hw : i + 1 < ks
  · rw [rollingMeanF_getElem _ ks i hi2, if_pos hw]
  · apply rollingMeanF_nan_of_window hi2 le_rfl (by omega)
    exact percent_k_raw_nan_of_lt (by omega) (by omega)

lemma pk_smooth_num_at {df : List Ohlc} {k ks : Nat}
    (hflat : ∀ i, i < df.length → k ≤ i + 1 →
      qfoldMin (winSlice (df.map Ohlc.low) i k) ≠
      qfoldMax (winSlice (df.map Ohlc.high) i k))
    (hk : 1 ≤ k) (hks : 1 ≤ ks) {j : Nat} (hj1 : k + ks - 2 ≤ j) (hj2 : j < df.length) :
    ∃ q : ℚ, (rollingMeanF (percent_k_raw df k) ks)[j]? = some (FVal.num q) := by
  have hj2r : j < (percent_k_raw df k).length := by
    rw [percent_k_raw_length]
    exact hj2
  apply rollingMeanF_num_of_window hj2r hks (by omega)
  intro m hm1 hm2
  have hmlen : m < df.length := by omega
  exact percent_k_raw_num_of_ne hmlen (by omega) hk (hflat m hmlen (by omega))

lemma pd_nan_of_lt {df : List Ohlc} {k ks ds i : Nat} (hi : i < df.length)
    (hlt : i < k + ks + ds - 3) (hk : 1 ≤ k) (hks : 1 ≤ ks) (hds : 1 ≤ ds) :
    (rollingMeanF (rollingMeanF (percent_k_raw df k) ks) ds)[i]? = some FVal.nan := by
  have hi2 : i < (rollingMeanF (percent_k_raw df k) ks).length := by
    rw [rollingMeanF_length, percent_k_raw_length]
    exact hi
  by_cases hw : i + 1 < ds
  · rw [rollingMeanF_getElem _ ds i hi2, if_pos hw]
  · apply rollingMeanF_nan_of_window hi2 le_rfl (by omega)
    exact pk_smooth_nan_of_lt (by omega) (by omega) hk hks

lemma pd_num_at {df : List Ohlc} {k ks ds : Nat}
    (hflat : ∀ i, i < df.length → k ≤ i + 1 →
      qfoldMin (winSlice (df.map Ohlc.low) i k) ≠
      qfoldMax (winSlice (df.map Ohlc.high) i k))
    (hk : 1 ≤ k) (hks : 1 ≤ ks) (hds : 1 ≤ ds) {j : Nat}
    (hj1 : k + ks + ds - 3 ≤ j) (hj2 : j < df.length) :
    ∃ q : ℚ,
      (rollingMeanF (rollingMeanF (percent_k_raw df k) ks) ds)[j]? = some (FVal.num q) := by
  have hi2 : j < (rollingMeanF (percent_k_raw df k) ks).length := by
    rw [rollingMeanF_length, percent_k_raw_length]
    exact hj2
  apply rollingMeanF_num_of_window hi2 hds (by omega)
  intro m hm1 hm2
  exact pk_smooth_num_at hflat hk hks (by omega) (by omega)

lemma leadingUndef_eq :
    ∀ (xs : List FVal) (n : Nat),
      (∀ i, i < n → xs[i]? = some FVal.nan) →
      (∃ v, xs[n]? = some v ∧ v ≠ FVal.nan) →
      leadingUndef xs = n := by
  intro xs
  induction xs with
  | nil =>
    intro n _ hdef
    obtain ⟨v, hv, -⟩ := hdef
    simp at hv
  | cons x xs ih =>
    intro n hnan hdef
    cases n with
    | zero =>
      obtain ⟨v, hv, hvn⟩ := hdef
      simp only [List.getElem?_cons_zero, Option.some_inj] at hv
      subst hv
      unfold leadingUndef
      rw [List.takeWhile_cons]
      simp [hvn]
    | succ m =>
      have hx : (x :: xs)[0]? = some FVal.nan := hnan 0 (Nat.succ_pos m)
      simp only [List.getElem?_cons_zero, Option.some_inj] at hx
      subst hx
      have ihm := ih m
        (fun i hi => by simpa using hnan (i + 1) (by omega))
        (by
          obtain ⟨v, hv, hvn⟩ := hdef
          exact ⟨v, by simpa using hv, hvn⟩)
      unfold leadingUndef at ihm ⊢
      rw [List.takeWhile_cons]
      simp [ihm]

/-- C5 counterexample: on the 23-month series `df23` (minimal length for
the defaults 14, 6, 3) the %K line has 18 leading undefined cells and the
%D line 20 — neither equals the claimed `k + k_smooth + d_smooth - 2 = 21`. -/
theorem C5_counterexample :
    leadingUndef (calculate_stochastic df23 14 6 3).1 ≠ 14 + 6 + 3 - 2 ∧
    leadingUndef (calculate_stochastic df23 14 6 3).2 ≠ 14 + 6 + 3 - 2 ∧
    leadingUndef (calculate_stochastic df23 14 6 3).1 = 18 ∧
    leadingUndef (calculate_stochastic df23 14 6 3).2 = 20 := by
  with_unfolding_all decide

/-- C5 amended: for positive window parameters, a series of length at
least `k + k_smooth + d_smooth` none of whose full `k`-windows is flat
has exactly `k + k_smooth - 2` leading undefined cells in %K and exactly
`k + k_smooth + d_smooth - 3` in %D. -/
theorem C5_leading_undefined (df : List Ohlc) (k ks ds : Nat)
    (hk : 1 ≤ k) (hks : 1 ≤ ks) (hds : 1 ≤ ds)
    (hlen : k + ks + ds ≤ df.length)
    (hflat : ∀ i, i < df.length → k ≤ i + 1 →
      qfoldMin (winSlice (df.map Ohlc.low) i k) ≠
      qfoldMax (winSlice (df.map Ohlc.high) i k)) :
    leadingUndef (calculate_stochastic df k ks ds).1 = k + ks - 2 ∧
    leadingUndef (calculate_stochastic df k ks ds).2 = k + ks + ds - 3 := by
  rw [calculate_stochastic_eq hlen]
  constructor
  · apply leadingUndef_eq
    · intro i hi
      exact pk_smooth_nan_of_lt (by omega) hi hk hks
    · obtain ⟨q, hq⟩ := pk_smooth_num_at hflat hk hks (le_refl (k + ks - 2)) (by omega)
      exact ⟨FVal.num q, hq, by simp⟩
  · apply leadingUndef_eq
    · intro i hi
      exact pd_nan_of_lt (by omega) hi hk hks hds
    · obtain ⟨q, hq⟩ := pd_num_at hflat hk hks hds (le_refl (k + ks + ds - 3)) (by omega)
      exact ⟨FVal.num q, hq, by simp⟩

/-- C5 witness: the amended counts are attained on `df23`. -/
theorem C5_witness :
    leadingUndef (calculate_stochastic df23 14 6 3).1 = 14 + 6 - 2 ∧
    leadingUndef (calculate_stochastic df23 14 6 3).2 = 14 + 6 + 3 - 3 :=
  C5_leading_undefined df23 14 6 3 (by decide) (by decide) (by decide) (by decide)
    (by decide)

end ClaimC5

section ScanLemmas

lemma evalTicker_some_elim {t : TickerInput} {r : ReportRow}
    (h : evalTicker t = some r) :
    ∃ df last_row k_now d_now k_prev d_prev,
      t.fetch = some df ∧
      ¬ stripStr t.ticker = "" ∧
      ¬ (df.isEmpty ∨ df.length < 50) ∧
      df.getLast? = some last_row ∧
      ¬ (t.source = "asx" ∧ last_row.close < 1 / 2) ∧
      ¬ (t.source ∈ ["us_stocks", "nasdaq", "nyse", "s_p_500"] ∧ last_row.close < 1) ∧
      ¬ ((calculate_stochastic df).1.isEmpty ∨ (calculate_stochastic df).2.isEmpty ∨
         (dropna (calculate_stochastic df).1).length < 2) ∧
      kNow df = some k_now ∧ dNow df = some d_now ∧
      kPrev df = some k_prev ∧ dPrev df = some d_prev ∧
      r = { ticker := t.ticker
            name := t.info_name.getD "N/A"
            date := last_row.date
            open_ := round2 last_row.open_
            high := round2 last_row.high
            low := round2 last_row.low
            close := round2 last_row.close
            k := round2F k_now
            d := round2F d_now
            signal := get_signal k_now d_now
            buy := if get_signal k_prev d_prev = "Bearish" ∧
                      get_signal k_now d_now = "Bullish"
                   then "Yes" else "" } := by
  unfold evalTicker at h
  split at h
  · exact absurd h (by simp)
  next hticker =>
    split at h
    next => exact absurd h (by simp)
    next df hfetch =>
      split at h
      next => exact absurd h (by simp)
      next hlen50 =>
        split at h
        next => exact absurd h (by simp)
        next last_row hlast =>
          split at h
          next => exact absurd h (by simp)
          next hasx =>
            split at h
            next => exact absurd h (by simp)
            next hus =>
              split at h
              next => exact absurd h (by simp)
              next hpk =>
                split at h
                next k_now d_now k_prev d_prev hk hd hkp hdp =>
                  injection h with h
                  exact ⟨df, last_row, k_now, d_now, k_prev, d_prev, hfetch, hticker,
                    hlen50, hlast, hasx, hus, hpk, hk, hd, hkp, hdp, h.symm⟩
                next => exact absurd h (by simp)

end ScanLemmas

section ClaimsScan

lemma negIdx_some_le {α : Type} {xs : List α} {n : Nat} {v : α}
    (h : negIdx xs n = some v) : n ≤ xs.length := by
  unfold negIdx at h
  split at h
  · assumption
  · cases h

/-- C1: for every evaluated symbol, the Buy flag is "Yes" exactly when
the signal of the previous selected (%K, %D) values is Bearish and the
signal of the current selected values is Bullish; no other condition sets
it, and the flag is otherwise the empty string. -/
theorem C1_buy_iff_crossover (t : TickerInput) (df : List Ohlc) (r : ReportRow)
    (k_now d_now k_prev d_prev : FVal)
    (hf : t.fetch = some df) (h : evalTicker t = some r)
    (h1 : kNow df = some k_now) (h2 : dNow df = some d_now)
    (h3 : kPrev df = some k_prev) (h4 : dPrev df = some d_prev) :
    (r.buy = "Yes" ↔
      get_signal k_prev d_prev = "Bearish" ∧ get_signal k_now d_now = "Bullish") ∧
    (r.buy = "Yes" ∨ r.buy = "") := by
  obtain ⟨df2, last_row, kn, dn, kp, dp, hf2, -, -, -, -, -, -, hk, hd, hkp, hdp, hr⟩ :=
    evalTicker_some_elim h
  rw [hf] at hf2
  injection hf2 with hf2
  subst hf2
  rw [h1] at hk
  injection hk with hk
  subst hk
  rw [h2] at hd
  injection hd with hd
  subst hd
  rw [h3] at hkp
  injection hkp with hkp
  subst hkp
  rw [h4] at hdp
  injection hdp with hdp
  subst hdp
  subst hr
  by_cases hc : get_signal k_prev d_prev = "Bearish" ∧ get_signal k_now d_now = "Bullish"
  · simp [hc]
  · simp [hc]

/-- C1 witness: the well-behaved ticker `t0` produces a row with an empty
Buy flag, matching its Bearish-to-Bearish signals. -/
theorem C1_witness :
    (row0.buy = "Yes" ↔
      get_signal (FVal.num 50) (FVal.num 50) = "Bearish" ∧
      get_signal (FVal.num 50) (FVal.num 50) = "Bullish") ∧
    (row0.buy = "Yes" ∨ row0.buy = "") :=
  C1_buy_iff_crossover t0 df50 row0 (FVal.num 50) (FVal.num 50) (FVal.num 50) (FVal.num 50)
    rfl (by with_unfolding_all decide) (by with_unfolding_all decide)
    (by with_unfolding_all decide) (by with_unfolding_all decide)
    (by with_unfolding_all decide)

/-- C4: a report row is produced only when the fetched series has at
least 50 periods and both the %K and the %D line keep at least 2 defined
values after `dropna`; a symbol failing either condition yields no row. -/
theorem C4_report_row_preconditions (t : TickerInput) (df : List Ohlc) (r : ReportRow)
    (hf : t.fetch = some df) (h : evalTicker t = some r) :
    50 ≤ df.length ∧ 2 ≤ (dropna (calculate_stochastic df).1).length ∧
    2 ≤ (dropna (calculate_stochastic df).2).length := by
  obtain ⟨df2, last_row, kn, dn, kp, dp, hf2, -, hlen50, -, -, -, hpk, -, -, -, hdp, -⟩ :=
    evalTicker_some_elim h
  rw [hf] at hf2
  injection hf2 with hf2
  subst hf2
  simp only [not_or, not_lt] at hlen50 hpk
  exact ⟨hlen50.2, hpk.2.2, negIdx_some_le hdp⟩

/-- C4 witness: `t0` (52 periods, fully defined tail) satisfies both
preconditions. -/
theorem C4_witness :
    50 ≤ df50.length ∧ 2 ≤ (dropna (calculate_stochastic df50).1).length ∧
    2 ≤ (dropna (calculate_stochastic df50).2).length :=
  C4_report_row_preconditions t0 df50 row0 rfl (by with_unfolding_all decide)

/-- C6 counterexample: on the ticker `t6` over `df6`, the scanner builds
a row pairing the %K value of period 51 (where %D is undefined) with the
%D value of period 44: the last defined index of %K is 51 while that of
%D is 44, the aligned pair at the latest both-defined period 44 is
(50, 50), i.e. Bearish, yet the emitted row is Bullish with Buy = "Yes". -/
theorem C6_counterexample :
    evalTicker t6 = some row6 ∧
    kNow df6 = some (FVal.num 100) ∧ dNow df6 = some (FVal.num 50) ∧
    kPrev df6 = some (FVal.num 50) ∧ dPrev df6 = some (FVal.num 50) ∧
    lastDefIdx (calculate_stochastic df6).1 = some 51 ∧
    lastDefIdx (calculate_stochastic df6).2 = some 44 ∧
    (calculate_stochastic df6).1[51]? = some (FVal.num 100) ∧
    (calculate_stochastic df6).2[51]? = some FVal.nan ∧
    (calculate_stochastic df6).1[44]? = some (FVal.num 50) ∧
    (calculate_stochastic df6).2[44]? = some (FVal.num 50) ∧
    row6.signal = "Bullish" ∧ row6.buy = "Yes" ∧
    get_signal (FVal.num 50) (FVal.num 50) = "Bearish" := by
  with_unfolding_all decide

/-- C6 amended: the classification and the reported %K/%D of a row come
from the latest defined value of %K and, independently, the latest
defined value of %D, each obtained by dropping NaNs from its own series;
with interior undefined entries these may belong to different periods. -/
theorem C6_independent_dropna (t : TickerInput) (df : List Ohlc) (r : ReportRow)
    (k_now d_now : FVal)
    (hf : t.fetch = some df) (h : evalTicker t = some r)
    (h1 : kNow df = some k_now) (h2 : dNow df = some d_now) :
    r.signal = get_signal k_now d_now ∧ r.k = round2F k_now ∧ r.d = round2F d_now := by
  obtain ⟨df2, last_row, kn, dn, kp, dp, hf2, -, -, -, -, -, -, hk, hd, -, -, hr⟩ :=
    evalTicker_some_elim h
  rw [hf] at hf2
  injection hf2 with hf2
  subst hf2
  rw [h1] at hk
  injection hk with hk
  subst hk
  rw [h2] at hd
  injection hd with hd
  subst hd
  subst hr
  exact ⟨rfl, rfl, rfl⟩

/-- C6 witness: on `t6` the row indeed carries the independently selected
values (%K from period 51, %D from period 44). -/
theorem C6_witness :
    row6.signal = get_signal (FVal.num 100) (FVal.num 50) ∧
    row6.k = round2F (FVal.num 100) ∧ row6.d = round2F (FVal.num 50) :=
  C6_independent_dropna t6 df6 row6 (FVal.num 100) (FVal.num 50) rfl
    (by with_unfolding_all decide) (by with_unfolding_all decide)
    (by with_unfolding_all decide)

/-- C9: a symbol whose evaluation fails (download error, too little
history, undefined indicator, index error — every `continue` path) is
merely skipped: scanning a batch containing it produces exactly the rows
of the batch without it, so the remaining symbols are unaffected. -/
theorem C9_per_symbol_isolation (pre suf : List TickerInput) (t : TickerInput)
    (hfail : evalTicker t = none) :
    scan_tickers (pre ++ t :: suf) = scan_tickers (pre ++ suf) := by
  unfold scan_tickers
  rw [List.filterMap_append, List.filterMap_append, List.filterMap_cons, hfail]

/-- C9 witness: a failed download for `tBad` leaves the result for `t0`
intact. -/
theorem C9_witness : scan_tickers [tBad, t0] = scan_tickers [t0] :=
  C9_per_symbol_isolation [] [t0] tBad (by with_unfolding_all decide)

/-- C10: the scan loop excludes an "asx" symbol whose latest close is
below 0.50, and a "us_stocks"/"nasdaq"/"nyse"/"s_p_500" symbol whose
latest close is below 1.00, regardless of its indicator values. -/
theorem C10_price_floor (t : TickerInput) (df : List Ohlc) (last_row : Ohlc)
    (hf : t.fetch = some df) (hl : df.getLast? = some last_row)
    (hcond : (t.source = "asx" ∧ last_row.close < 1 / 2) ∨
             (t.source ∈ ["us_stocks", "nasdaq", "nyse", "s_p_500"] ∧ last_row.close < 1)) :
    evalTicker t = none := by
  cases hev : evalTicker t with
  | none => rfl
  | some r =>
    obtain ⟨df2, last2, kn, dn, kp, dp, hf2, -, -, hlast2, hasx, hus, -, -, -, -, -, -⟩ :=
      evalTicker_some_elim hev
    rw [hf] at hf2
    injection hf2 with hf2
    subst hf2
    rw [hl] at hlast2
    injection hlast2 with hlast2
    subst hlast2
    rcases hcond with hc | hc
    · exact absurd hc hasx
    · exact absurd hc hus

/-- C10 witness: the 0.40-close ASX ticker `tAsx` is excluded. -/
theorem C10_witness : evalTicker tAsx = none :=
  C10_price_floor tAsx dfAsx ⟨"d", 1/5, 3, 1/10, 2/5⟩ rfl (by with_unfolding_all decide)
    (Or.inl ⟨rfl, by norm_num⟩)

end ClaimsScan
